import Mathlib

/-!
Verification development for the `wt` git-worktree manager.

The definitions below are a shallow embedding of the Go sources:
pure string/list computations are translated directly; calls into the
external `git` binary and the filesystem are abstracted as oracle
fields of environment structures (the value such a call would have
returned), and the side effects a command performs are made explicit
as effect traces.  Paths are modelled as plain strings with `/` as
separator and no `..`/symlink normalisation, matching the string
operations (`strings.HasPrefix`, `filepath.Join` on clean components)
the sources themselves use.
-/

namespace Wt

/-- Model of Go `strings.HasPrefix s pre` (byte-wise prefix test). -/
def strStartsWith (s pre : String) : Bool :=
  pre.toList.isPrefixOf s.toList

/-- Model of Go `filepath.Join a b` for a clean relative component `b`:
plain concatenation with the `/` separator. -/
def joinPath (a b : String) : String :=
  a ++ "/" ++ b

/-- Model of Go `filepath.IsAbs` on unix: the path starts with `/`. -/
def isAbsPath (s : String) : Bool :=
  strStartsWith s "/"

/-- Go `git.Worktree` (internal/git): one entry of `git worktree list --porcelain`. -/
structure Worktree where
  path : String
  branch : String
  commit : String
  bare : Bool
deriving Repr, DecidableEq

/-- Go `git.WorktreeStatus` (internal/git): the per-worktree status record.
`createdAt` is a unix timestamp (0 = never recorded). -/
structure WorktreeStatus where
  hasUncommittedChanges : Bool
  commitsAhead : Nat
  commitsBehind : Nat
  isMerged : Bool
  mergedPRs : List String
  isNew : Bool
  createdAt : Int
deriving Repr, DecidableEq

/-- ANSI bold escape, `internal/commands/status.go`. -/
def bold : String := "\x1b[1m"

/-- ANSI reset escape, `internal/commands/status.go`. -/
def reset : String := "\x1b[0m"

/-- Go `FormatMergedStatus` (internal/commands/status.go): `"merged"` when no
PR numbers were found, otherwise `"merged in #1, #2"`. -/
def FormatMergedStatus (prs : List String) : String :=
  if prs.isEmpty then "merged"
  else "merged in " ++ String.intercalate ", " prs

/-- The `statusTags` list built inside `FormatCompactStatus`
(internal/commands/status.go lines 29-45): a mutually exclusive state
indicator chosen by the `if / else if` chain, followed by the additive
`dirty` tag. -/
def statusTags (s : WorktreeStatus) : List String :=
  let stateTags : List String :=
    if s.isNew then ["new"]
    else if 0 < s.commitsAhead ∧ s.isMerged = false then [bold ++ "in_progress" ++ reset]
    else if s.isMerged = true ∧ s.commitsAhead = 0 then [FormatMergedStatus s.mergedPRs]
    else []
  stateTags ++ (if s.hasUncommittedChanges then [bold ++ "dirty" ++ reset] else [])

/-- Go `FormatCompactStatus` (internal/commands/status.go): ahead/behind
arrow tokens followed by the bracketed tag list. -/
def FormatCompactStatus (s : WorktreeStatus) : String :=
  let parts : List String := []
  let parts := if 0 < s.commitsAhead then parts ++ ["↑" ++ toString s.commitsAhead] else parts
  let parts := if 0 < s.commitsBehind then parts ++ ["↓" ++ toString s.commitsBehind] else parts
  let tags := statusTags s
  let parts := if 0 < tags.length then parts ++ ["[" ++ String.intercalate ", " tags ++ "]"] else parts
  String.intercalate " " parts

/-- Go `git.GetWorktreeName` (internal/git): the first component of
`filepath.Rel(<repoRoot>/<worktreeDir>, worktreePath)`.  In this string
model a path that is not strictly below the worktree directory behaves
like Go's `Rel` error case and falls back to the base name. -/
def GetWorktreeName (repoRoot worktreePath worktreeDir : String) : String :=
  let base := joinPath repoRoot worktreeDir
  if worktreePath = base then "."
  else if strStartsWith worktreePath (base ++ "/") then
    String.mk ((worktreePath.toList.drop (base.length + 1)).takeWhile (fun c => c ≠ '/'))
  else String.mk (worktreePath.toList.reverse.takeWhile (fun c => c ≠ '/')).reverse

/-- One candidate row of `wt cleanup` (`cleanupCandidate` in
internal/commands/cleanup.go). -/
structure CleanupCandidate where
  name : String
  path : String
  branch : String
  status : WorktreeStatus
deriving Repr, DecidableEq

/-- Environment of one `wt cleanup` / `wt list` invocation.  `worktrees`
is the parsed output of `git worktree list`; `status` is the oracle for
`git.GetWorktreeStatus` on a listed worktree (`none` models the error
branch that prints a warning and skips the worktree). -/
structure CleanupEnv where
  repoRoot : String
  worktreeDir : String
  worktrees : List Worktree
  status : Worktree → Option WorktreeStatus

/-- The managed worktree directory `<repoRoot>/<worktreeDir>` computed by
`runCleanup` and `runList`. -/
def worktreesDirOf (env : CleanupEnv) : String :=
  joinPath env.repoRoot env.worktreeDir

/-- The per-worktree body of the candidate loop in `runCleanup`
(internal/commands/cleanup.go lines 75-125): skip the main worktree,
skip paths outside the managed directory, skip detached HEAD, skip on a
status error, then keep the worktree exactly when it is not dirty, not
new, has zero commits ahead and is merged. -/
def cleanupSelect (env : CleanupEnv) (wt : Worktree) : Option CleanupCandidate :=
  if wt.path = env.repoRoot then none
  else if strStartsWith wt.path (worktreesDirOf env) = false then none
  else
    let name := GetWorktreeName env.repoRoot wt.path env.worktreeDir
    if wt.branch = "" then none
    else
      match env.status wt with
      | none => none
      | some st =>
        if st.hasUncommittedChanges then none
        else if st.isNew then none
        else if 0 < st.commitsAhead then none
        else if st.isMerged then some ⟨name, wt.path, wt.branch, st⟩
        else none

/-- The candidate set computed by `runCleanup`: the loop of lines 75-125
over all listed worktrees, in listing order. -/
def cleanupCandidates (env : CleanupEnv) : List CleanupCandidate :=
  env.worktrees.filterMap (cleanupSelect env)

/-- One display row of `wt list` (`worktreeInfo` in
internal/commands/list.go), restricted to the fields the claims use. -/
structure ListedWorktree where
  name : String
  path : String
  branch : String
deriving Repr, DecidableEq

/-- The per-worktree body of the collection loop in `runList`
(internal/commands/list.go lines 136-170): skip the main worktree and
paths outside the managed directory; every other listed worktree is
kept. -/
def listSelect (env : CleanupEnv) (wt : Worktree) : Option ListedWorktree :=
  if wt.path = env.repoRoot then none
  else if strStartsWith wt.path (worktreesDirOf env) = false then none
  else some ⟨GetWorktreeName env.repoRoot wt.path env.worktreeDir, wt.path, wt.branch⟩

/-- The managed worktrees `wt list` displays. -/
def listManaged (env : CleanupEnv) : List ListedWorktree :=
  env.worktrees.filterMap (listSelect env)

/-! ### Delete target resolution (internal/commands/delete.go lines 63-90) -/

/-- Model of `filepath.Rel base target` in the cases `runDelete` reaches
(after `strings.HasPrefix(target, base)` held): identical paths give
`"."`, a path below `base` gives the remainder, and a prefix that does
not fall on a `/` boundary gives a path starting with `".."` as Go's
`Rel` does. -/
def relPath (base target : String) : String :=
  if target = base then "."
  else if strStartsWith target (base ++ "/") then
    String.mk (target.toList.drop (base.length + 1))
  else ".."

/-- The target-resolution phase of `runDelete` (delete.go lines 63-90):
an explicit name is joined under the worktree directory; otherwise the
name is the first path component of `cwd` relative to the worktree
directory, provided `cwd` lies under it.  Returns the worktree name and
the path that the rest of `runDelete` operates on. -/
def deleteTarget (repoRoot worktreeDir : String) (args : List String) (cwd : String) :
    Except String (String × String) :=
  match args with
  | name :: _ => .ok (name, joinPath (joinPath repoRoot worktreeDir) name)
  | [] =>
    let worktreesDir := joinPath repoRoot worktreeDir
    if strStartsWith cwd worktreesDir = false then
      .error "not in a worktree (specify name or cd into a worktree)"
    else
      let rel := relPath worktreesDir cwd
      let name := String.mk (rel.toList.takeWhile (fun c => c ≠ '/'))
      .ok (name, joinPath worktreesDir name)

/-! ### Delete guard checks and effect flow (delete.go lines 114-241) -/

/-- The unmerged-commits guard message (delete.go lines 178-184),
singular for one commit ahead. -/
def aheadIssueMsg (ahead : Nat) (comparisonRef : String) : String :=
  if ahead = 1 then "has 1 commit not merged into " ++ comparisonRef
  else "has " ++ toString ahead ++ " commits not merged into " ++ comparisonRef

/-- The dirty-state guard message (delete.go line 124). -/
def dirtyIssueMsg : String :=
  "has uncommitted changes (modified or untracked files)"

/-- The `issues` list accumulated by the safety checks of `runDelete`
(delete.go lines 115-185): the dirty-state guard entry followed by the
unmerged-commits guard entry, each present exactly when violated. -/
def deleteGuardIssues (dirty : Bool) (ahead : Nat) (comparisonRef : String) : List String :=
  (if dirty then [dirtyIssueMsg] else [])
    ++ (if 0 < ahead then [aheadIssueMsg ahead comparisonRef] else [])

/-- Externally visible actions of the deletion phase of `runDelete` /
the per-candidate loop of `runCleanup`. -/
inductive DeleteEffect where
  | preDeleteHooks (name : String)
  | removeWorktree (path : String) (force : Bool)
  | deleteBranch (branch : String) (force : Bool)
  | postDeleteHooks (name : String)
deriving Repr, DecidableEq

/-- Failure cases of the deletion flow of `runDelete`. -/
inductive DeleteError where
  | guardViolations (issues : List String)
  | preDeleteHookFailed
  | removeFailed
deriving Repr, DecidableEq

/-- Inputs of one `wt delete` run after target resolution: the flag
values, the oracle answers of the git queries (`dirty` for
`HasUncommittedChanges`, `ahead` for `GetCommitsAheadBehind` against the
resolved `comparisonRef`) and the oracle outcomes of the mutating
steps. -/
structure DeleteEnv where
  force : Bool
  keepBranch : Bool
  name : String
  path : String
  branch : String
  dirty : Bool
  ahead : Nat
  comparisonRef : String
  preDeleteOk : Bool
  removeOk : Bool

/-- Result of the deletion flow: the effects that were performed, in
order, and the outcome. -/
structure DeleteResult where
  effects : List DeleteEffect
  outcome : Except DeleteError Unit
deriving Repr

/-- The guarded deletion flow of `runDelete` (delete.go lines 114-241):
unless forced, both guards are checked and a non-empty issue list aborts
before any hook or mutation; then pre-delete hooks (failure aborts
unless forced), worktree removal (failure aborts), branch deletion
unless `keepBranch` or detached (failure only warns), and post-delete
hooks (failure only warns). -/
def runDeleteFrom (env : DeleteEnv) : DeleteResult :=
  if env.force = false ∧ deleteGuardIssues env.dirty env.ahead env.comparisonRef ≠ [] then
    ⟨[], .error (.guardViolations (deleteGuardIssues env.dirty env.ahead env.comparisonRef))⟩
  else
    let effects := [DeleteEffect.preDeleteHooks env.name]
    if env.preDeleteOk = false ∧ env.force = false then
      ⟨effects, .error .preDeleteHookFailed⟩
    else
      let effects := effects ++ [DeleteEffect.removeWorktree env.path env.force]
      if env.removeOk = false then ⟨effects, .error .removeFailed⟩
      else
        let effects := effects
          ++ (if env.keepBranch = false ∧ env.branch ≠ "" then
                [DeleteEffect.deleteBranch env.branch env.force] else [])
          ++ [DeleteEffect.postDeleteHooks env.name]
        ⟨effects, .ok ()⟩

/-! ### Hook orchestrator (internal/hooks, src/unnamed/part_006 lines 738-844) -/

/-- Go `config.HookEntry` (internal/config/config.go): a script path and
extra environment pairs (the Go map is modelled as an association
list). -/
structure HookEntry where
  script : String
  env : List (String × String)
deriving Repr, DecidableEq

/-- Go `hooks.Env` (part_006 lines 749-756): the worktree data handed to
hook scripts.  Note the source struct has exactly these five fields —
there is no index field. -/
structure HookEnv where
  name : String
  path : String
  branch : String
  repoRoot : String
  worktreeDir : String
deriving Repr, DecidableEq

/-- Go `Env.ToEnvVars` (part_006 lines 758-768): the wt-specific
environment entries passed to every hook invocation. -/
def ToEnvVars (e : HookEnv) : List String :=
  [ "WT_NAME=" ++ e.name,
    "WT_PATH=" ++ e.path,
    "WT_BRANCH=" ++ e.branch,
    "WT_REPO_ROOT=" ++ e.repoRoot,
    "WT_WORKTREE_DIR=" ++ e.worktreeDir ]

/-- The full environment of a hook process (part_006 lines 799-805):
the inherited process environment, then the wt variables, then the
hook-specific pairs from configuration. -/
def hookCmdEnv (procEnv : List String) (e : HookEnv) (entry : HookEntry) : List String :=
  procEnv ++ ToEnvVars e ++ entry.env.map (fun p => p.1 ++ "=" ++ p.2)

/-- Filesystem / process oracles for hook execution: `pathExists` is the
`os.Stat` check on the resolved script path, `execOk` tells whether
running the script (via `/bin/bash`, in the given working directory)
exits with status zero. -/
structure HookOS where
  pathExists : String → Bool
  execOk : String → String → Bool

/-- Errors of a single hook execution: the explicit
"hook script not found" error of `runHook`, or the error `cmd.Run`
returns for a non-zero exit. -/
inductive HookError where
  | scriptNotFound (path : String)
  | execFailed (path : String)
deriving Repr, DecidableEq

/-- The user-visible message of a hook error (part_006 line 793 for the
not-found case). -/
def hookErrorMessage : HookError → String
  | .scriptNotFound p => "hook script not found: " ++ p
  | .execFailed p => "hook script failed: " ++ p

/-- Script path resolution in `runHook` (part_006 lines 783-788): a
relative path is joined under the repository root. -/
def resolveHookScript (repoRoot script : String) : String :=
  if isAbsPath script then script else joinPath repoRoot script

/-- Go `runHook` (part_006 lines 780-808): resolve the script path, fail
with "hook script not found" when it does not exist, otherwise run it
and fail on a non-zero exit. -/
def runHook (os : HookOS) (e : HookEnv) (workDir : String) (entry : HookEntry) :
    Except HookError Unit :=
  let scriptPath := resolveHookScript e.repoRoot entry.script
  if os.pathExists scriptPath = false then .error (.scriptNotFound scriptPath)
  else if os.execOk scriptPath workDir then .ok ()
  else .error (.execFailed scriptPath)

/-- Go `Run` (part_006 lines 770-777): execute the entries sequentially,
returning the first failure. -/
def Run (os : HookOS) (e : HookEnv) (workDir : String) : List HookEntry → Except HookError Unit
  | [] => .ok ()
  | entry :: rest =>
    match runHook os e workDir entry with
    | .error err => .error err
    | .ok _ => Run os e workDir rest

/-- The scripts the loop of `Run` actually invokes (i.e. for which
`cmd.Run` is reached), in invocation order: execution stops after the
entry whose script is missing (not invoked) or whose run fails
(invoked, then abort). -/
def RunExecuted (os : HookOS) (e : HookEnv) (workDir : String) : List HookEntry → List String
  | [] => []
  | entry :: rest =>
    let scriptPath := resolveHookScript e.repoRoot entry.script
    if os.pathExists scriptPath = false then []
    else if os.execOk scriptPath workDir then scriptPath :: RunExecuted os e workDir rest
    else [scriptPath]

/-! ### Index allocator -/

/-- The allocation-exhausted error message of `AllocateIndex`
(IMPLEMENTATION_PLAN.md line 448). -/
def allocExhaustedMsg (maxIndex : Nat) : String :=
  "no available index: all indexes 1-" ++ toString maxIndex ++ " are in use"

/-- The unbounded search loop of `AllocateIndex`: starting from `i`,
check the upper bound first, then return the first index not in `used`.
The loop always returns within `used.length + 1` steps by pigeonhole, so
`AllocateIndex` supplies that much fuel; the zero-fuel arm is dead
code. -/
def allocGo (used : List Nat) (maxIndex : Nat) : Nat → Nat → Except String Nat
  | _, 0 => .error "no available index"
  | i, fuel + 1 =>
    if 0 < maxIndex ∧ maxIndex < i then .error (allocExhaustedMsg maxIndex)
    else if used.contains i then allocGo used maxIndex (i + 1) fuel
    else .ok i

/-- Modelled from the spec: `git.AllocateIndex` is not present under
src; this is the algorithm of IMPLEMENTATION_PLAN.md lines 435-456
(matching spec §4.1 `allocate`), with the scan of
`.git/worktrees/*/wt-index` abstracted into the `used` list of indices
currently persisted by live worktrees.  Finds the lowest unused index
starting at 1, or fails naming the configured bound. -/
def AllocateIndex (used : List Nat) (maxIndex : Nat) : Except String Nat :=
  allocGo used maxIndex 1 (used.length + 1)

/-! ### User configuration and fetch-interval policy
(internal/userconfig, src/unnamed/part_009) -/

/-- Go `userconfig.RepoConfig`: per-repository overrides; `fetchInterval`
is optional to distinguish unset from empty. -/
structure RepoConfig where
  remote : String
  fetchInterval : Option String
deriving Repr, DecidableEq

/-- Go `userconfig.UserConfig`: global defaults plus per-repository
overrides keyed by absolute repo path (the Go map is modelled as an
association list looked up by key). -/
structure UserConfig where
  remote : String
  fetchInterval : String
  repos : List (String × RepoConfig)

/-- Lookup of `c.Repos[repoPath]`. -/
def reposFind (c : UserConfig) (repoPath : String) : Option RepoConfig :=
  (c.repos.find? (fun p => p.1 = repoPath)).map (fun p => p.2)

/-- Go `GetRemoteForRepo` (part_009 lines 138-144): the per-repo override
when set and non-empty, else the global default. -/
def GetRemoteForRepo (c : UserConfig) (repoPath : String) : String :=
  match reposFind c repoPath with
  | some rc => if rc.remote ≠ "" then rc.remote else c.remote
  | none => c.remote

/-- Go `userconfig.FetchIntervalNever = time.Duration(-1)`, in
nanoseconds. -/
def FetchIntervalNever : Int := -1

/-- Go `userconfig.DefaultFetchInterval`. -/
def DefaultFetchInterval : String := "5m"

/-- The `intervalStr` computed by `GetFetchIntervalForRepo` (part_009
lines 150-159): global value (default `"5m"` when empty), overridden by
a set per-repo value. -/
def effectiveFetchIntervalString (c : UserConfig) (repoPath : String) : String :=
  let s := if c.fetchInterval = "" then DefaultFetchInterval else c.fetchInterval
  match reposFind c repoPath with
  | some rc =>
    match rc.fetchInterval with
    | some s2 => s2
    | none => s
  | none => s

/-- Nanoseconds per duration unit, the unit table of Go
`time.ParseDuration` (the unicode `µs` aliases are outside this
model). -/
def unitNs (u : String) : Option Int :=
  if u = "ns" then some 1
  else if u = "us" then some 1000
  else if u = "ms" then some 1000000
  else if u = "s" then some 1000000000
  else if u = "m" then some 60000000000
  else if u = "h" then some 3600000000000
  else none

/-- Digits-to-number accumulator for duration parsing. -/
def digitsVal (l : List Char) : Nat :=
  l.foldl (fun acc c => acc * 10 + (c.toNat - 48)) 0

/-- Component loop of Go `time.ParseDuration`, restricted to integer
components: each step reads a non-empty digit run and a known unit.
Fractional components and overflow are outside this model and are
treated as parse failures (which the caller maps to 0, as the source
discards the parse error).  Fuel is the remaining input length. -/
def parseGoDurationAux : Nat → List Char → Int → Option Int
  | 0, _, _ => none
  | _ + 1, [], acc => some acc
  | fuel + 1, l, acc =>
    let digits := l.takeWhile Char.isDigit
    if digits.isEmpty then none
    else
      let rest := l.drop digits.length
      if rest.head? = some '.' then none
      else
        let unitChars := rest.takeWhile (fun c => !(c.isDigit || c = '.'))
        match unitNs (String.mk unitChars) with
        | none => none
        | some u =>
          parseGoDurationAux fuel (rest.drop unitChars.length) (acc + (digitsVal digits : Int) * u)

/-- Model of Go `time.ParseDuration` (sign handling and the special
plain `"0"` case, then the component loop); `none` models a parse
error. -/
def parseGoDuration (s : String) : Option Int :=
  let l := s.toList
  let signed : Bool × List Char :=
    match l with
    | '-' :: rest => (true, rest)
    | '+' :: rest => (false, rest)
    | _ => (false, l)
  let neg := signed.1
  let body := signed.2
  if body = ['0'] then some 0
  else if body.isEmpty then none
  else (parseGoDurationAux (body.length + 1) body 0).map (fun v => if neg then -v else v)

/-- Go `GetFetchIntervalForRepo` (part_009 lines 151-171): `"never"` gives
the sentinel, anything else is parsed as a duration with parse errors
giving 0 (always fetch). -/
def GetFetchIntervalForRepo (c : UserConfig) (repoPath : String) : Int :=
  let s := effectiveFetchIntervalString c repoPath
  if s = "never" then FetchIntervalNever
  else (parseGoDuration s).getD 0

/-! ### Comparison resolver (src/unnamed/part_004 lines 23-78) -/

/-- Inputs of one `resolveComparisonRef` run: the user configuration,
the repo, the repo config's default-branch override, the oracle result
of `git.GetDefaultBranch` (empty string models its error), the elapsed
time since the recorded last fetch in nanoseconds
(`time.Since(lastFetch)`), and the oracle for `git.RefExists`. -/
structure ResolveEnv where
  userCfg : UserConfig
  repoPath : String
  cfgDefaultBranch : String
  detectedDefault : String
  timeSinceLastFetch : Int
  refExists : String → Bool

/-- The comparison branch of `resolveComparisonRef` (part_004 lines
34-40): the repo config override, else the detected default branch,
else the literal fallback `"main"`. -/
def comparisonBranch (env : ResolveEnv) : String :=
  if env.cfgDefaultBranch ≠ "" then env.cfgDefaultBranch
  else if env.detectedDefault ≠ "" then env.detectedDefault
  else "main"

/-- Go `resolveComparisonRef` (part_004 lines 23-78), returning the
resolved comparison ref together with whether a network fetch was
performed: with a non-empty remote and an interval other than the
`"never"` sentinel, the fetch is skipped exactly when the interval is
positive and the elapsed time is still below it; the remote ref is used
when it exists, else the local branch; with no remote the local branch
is used and no fetch ever happens. -/
def resolveComparisonRef (env : ResolveEnv) : String × Bool :=
  let remote := GetRemoteForRepo env.userCfg env.repoPath
  let branch := comparisonBranch env
  if remote ≠ "" then
    let remoteRef := remote ++ "/" ++ branch
    let fetchInterval := GetFetchIntervalForRepo env.userCfg env.repoPath
    let didFetch :=
      if fetchInterval ≠ FetchIntervalNever then
        if 0 < fetchInterval ∧ env.timeSinceLastFetch < fetchInterval then false
        else true
      else false
    let comparisonRef := if env.refExists remoteRef then remoteRef else branch
    (comparisonRef, didFetch)
  else (branch, false)

/-! ### Merge-commit PR attribution
(`GetMergePRs` / `matchesBranchName`, src/unnamed/part_006 lines 312-389) -/

/-- The remainder of `l` after the first occurrence of `pat`, the
combination of `strings.Index` and slicing used by
`matchesBranchName`; `none` when `pat` does not occur. -/
def afterFirstSub (pat : List Char) : List Char → Option (List Char)
  | [] => none
  | c :: rest =>
    if pat.isPrefixOf (c :: rest) then some ((c :: rest).drop pat.length)
    else afterFirstSub pat rest

/-- Substring test, model of `strings.Contains` (for non-empty
patterns). -/
def containsSub (pat l : List Char) : Bool :=
  (afterFirstSub pat l).isSome

/-- Splitting loop of `strings.Fields`; each step consumes at least one
character, so fuel equal to the input length suffices and the zero-fuel
arm is dead code. -/
def charFieldsGo : Nat → List Char → List (List Char)
  | 0, _ => []
  | _ + 1, [] => []
  | fuel + 1, c :: rest =>
    if c.isWhitespace then charFieldsGo fuel rest
    else ((c :: rest).takeWhile (fun x => !x.isWhitespace))
      :: charFieldsGo fuel (rest.dropWhile (fun x => !x.isWhitespace))

/-- Model of Go `strings.Fields`: the maximal runs of non-whitespace
characters. -/
def charFields (l : List Char) : List (List Char) :=
  charFieldsGo l.length l

/-- The single-quote character, written by code point. -/
def quoteChar : Char := Char.ofNat 39

/-- Go `matchesBranchName` (part_006 lines 364-389): the token after the
first `"from "` equals the branch name, or equals it after stripping
one leading `owner/` segment; otherwise the branch name enclosed in
single quotes occurs in the line. -/
def matchesBranchName (line branchName : String) : Bool :=
  let l := line.toList
  let b := branchName.toList
  let fromCheck :=
    match afterFirstSub "from ".toList l with
    | some afterFrom =>
      match charFields afterFrom with
      | token :: _ =>
        if token = b then true
        else
          let afterSlash := token.dropWhile (fun c => c ≠ '/')
          decide (afterSlash ≠ [] ∧ afterSlash.drop 1 = b)
      | [] => false
    | none => false
  if fromCheck then true
  else containsSub (quoteChar :: (b ++ [quoteChar])) l

/-- The leftmost match of the case-insensitive regular expression
`pull request #(\d+)` (part_006 line 313): the maximal digit run after
the first `"pull request #"` that is followed by at least one digit.
Case-insensitivity is modelled by lowercasing the line, which agrees
with Go for this all-ASCII pattern. -/
def findPRNumberAux : List Char → Option (List Char)
  | [] => none
  | c :: rest =>
    let l := c :: rest
    let pat := "pull request #".toList
    if pat.isPrefixOf l ∧ ¬(l.drop pat.length).takeWhile Char.isDigit = [] then
      some ((l.drop pat.length).takeWhile Char.isDigit)
    else findPRNumberAux rest

/-- Digit extraction of `prNumberRegex.FindStringSubmatch` on a subject
line. -/
def findPRNumber (line : String) : Option String :=
  (findPRNumberAux (line.toList.map Char.toLower)).map String.mk

/-- The scanner loop of `GetMergePRs` (part_006 lines 333-355): keep
lines that reference the branch, extract the PR token when the
`pull request #N` pattern is present, and append unseen tokens in
discovery order. -/
def getMergePRsGo (branchName : String) : List String → List String → List String
  | [], acc => acc
  | line :: rest, acc =>
    if matchesBranchName line branchName then
      match findPRNumber line with
      | some n =>
        let pr := "#" ++ n
        if acc.contains pr then getMergePRsGo branchName rest acc
        else getMergePRsGo branchName rest (acc ++ [pr])
      | none => getMergePRsGo branchName rest acc
    else getMergePRsGo branchName rest acc

/-- Go `GetMergePRs` (part_006 lines 319-360): scan the subject lines of
the comparison branch's merge commits — the underlying
`git log --merges -n 100 --pretty=%s` yields at most the 100 most
recent, modelled by `take 100` on the full subject list (most recent
first) — and collect the distinct PR tokens of lines referencing the
branch. -/
def GetMergePRs (subjects : List String) (branchName : String) : List String :=
  getMergePRsGo branchName (subjects.take 100) []

/-! ### Cleanup orchestrator flow (internal/commands/cleanup.go) -/

/-- Externally visible actions of one `wt cleanup` run, including the
fetch that `SetupCompare` may perform during comparison setup. -/
inductive CleanupEffect where
  | fetch (remote : String)
  | preDeleteHooks (name : String)
  | removeWorktree (path : String) (force : Bool)
  | deleteBranch (branch : String) (force : Bool)
  | postDeleteHooks (name : String)
deriving Repr, DecidableEq

/-- Inputs of one `wt cleanup` run: the listing/status environment, the
comparison-setup environment, the oracle answer of the aggregate
confirmation prompt, and per-candidate oracles for the pre-delete hooks
and the worktree removal. -/
structure CleanupRunEnv where
  env : CleanupEnv
  resolveEnv : ResolveEnv
  confirm : Bool
  preDeleteOk : String → Bool
  removeOk : String → Bool

/-- Result of one `wt cleanup` run: the displayed candidate set, the
effects performed in order, and whether the run completed (false models
the `"aborted"` error of a declined confirmation). -/
structure CleanupResult where
  candidates : List CleanupCandidate
  effects : List CleanupEffect
  completed : Bool

/-- The fetch effect of `SetupCompare` (cleanup.go line 53 via
part_004): present exactly when `resolveComparisonRef` fetched. -/
def setupFetchEffects (renv : ResolveEnv) : List CleanupEffect :=
  if (resolveComparisonRef renv).2 then
    [CleanupEffect.fetch (GetRemoteForRepo renv.userCfg renv.repoPath)]
  else []

/-- The per-candidate deletion sequence of `runCleanup` (cleanup.go
lines 192-237): pre-delete hooks (a failure skips the candidate unless
forced), worktree removal (a failure skips the rest of the candidate),
branch deletion unless `keepBranch` or detached, post-delete hooks;
candidates are processed sequentially and one candidate's failure never
aborts the batch. -/
def cleanupDeletionEffects (renv : CleanupRunEnv) (force keepBranch : Bool) :
    List CleanupCandidate → List CleanupEffect
  | [] => []
  | c :: rest =>
    let this :=
      [CleanupEffect.preDeleteHooks c.name]
        ++ (if renv.preDeleteOk c.name = false ∧ force = false then []
            else
              [CleanupEffect.removeWorktree c.path force]
                ++ (if renv.removeOk c.path = false then []
                    else
                      (if keepBranch = false ∧ c.branch ≠ "" then
                        [CleanupEffect.deleteBranch c.branch force] else [])
                        ++ [CleanupEffect.postDeleteHooks c.name]))
    this ++ cleanupDeletionEffects renv force keepBranch rest

/-- Go `runCleanup` (cleanup.go lines 51-253) at effect granularity:
comparison setup (with its possible fetch), candidate selection and
display, then — when candidates exist — the dry-run early return, the
aggregate confirmation unless forced, and the sequential deletion
loop. -/
def runCleanup (renv : CleanupRunEnv) (dryRun force keepBranch : Bool) : CleanupResult :=
  let setupEffects := setupFetchEffects renv.resolveEnv
  let cands := cleanupCandidates renv.env
  if cands.isEmpty then ⟨[], setupEffects, true⟩
  else if dryRun then ⟨cands, setupEffects, true⟩
  else if force = false ∧ renv.confirm = false then ⟨cands, setupEffects, false⟩
  else ⟨cands, setupEffects ++ cleanupDeletionEffects renv force keepBranch cands, true⟩

/-! ### Concrete fixtures used by witness theorems -/

/-- A merged, clean, settled status record. -/
def sampleStatusMerged : WorktreeStatus :=
  ⟨false, 0, 3, true, ["#12"], false, 0⟩

/-- A worktree below the managed directory of `sampleCleanupEnv`. -/
def sampleWorktree : Worktree :=
  ⟨"/repo/worktrees/feat", "feat", "abc123", false⟩

/-- A one-worktree cleanup environment whose status oracle always
answers `sampleStatusMerged`. -/
def sampleCleanupEnv : CleanupEnv :=
  ⟨"/repo", "worktrees", [sampleWorktree], fun _ => some sampleStatusMerged⟩

/-- A status that is new and dirty. -/
def sampleStatusNewDirty : WorktreeStatus :=
  ⟨true, 0, 0, false, [], true, 0⟩

/-- A hook OS oracle where `/repo/missing.sh` does not exist and
`/repo/fail.sh` exits non-zero. -/
def sampleHookOS : HookOS :=
  ⟨fun p => p ≠ "/repo/missing.sh", fun p _ => p ≠ "/repo/fail.sh"⟩

/-- The hook environment of the hooks package unit test. -/
def testHookEnv : HookEnv :=
  ⟨"test-wt", "/repo/worktrees/test-wt", "test-branch", "/repo", "worktrees"⟩

/-- A three-entry hook list whose second entry fails. -/
def sampleHookEntries : List HookEntry :=
  [⟨"a.sh", []⟩, ⟨"fail.sh", []⟩, ⟨"c.sh", []⟩]

/-- A resolver environment with no configured remote and an arbitrarily
old last fetch. -/
def sampleLocalResolveEnv : ResolveEnv :=
  ⟨⟨"", "", []⟩, "/repo", "", "main", 999999999999999999, fun _ => false⟩

/-- A resolver environment with a remote and `fetch_interval: never`,
and an arbitrarily old last fetch. -/
def sampleNeverResolveEnv : ResolveEnv :=
  ⟨⟨"origin", "never", []⟩, "/repo", "", "main", 999999999999999999, fun _ => true⟩

/-- A resolver environment with a remote and `fetch_interval: "0"`, and
a fetch recorded this very instant. -/
def sampleAlwaysResolveEnv : ResolveEnv :=
  ⟨⟨"origin", "0", []⟩, "/repo", "", "main", 0, fun _ => true⟩

/-- A repository with no managed worktrees. -/
def emptyCleanupEnv : CleanupEnv :=
  ⟨"/repo", "worktrees", [], fun _ => none⟩

/-- A cleanup run over `emptyCleanupEnv` whose comparison setup fetches
on every invocation (remote `origin`, interval `"0"`). -/
def sampleCleanupRunEnv : CleanupRunEnv :=
  ⟨emptyCleanupEnv, sampleAlwaysResolveEnv, true, fun _ => true, fun _ => true⟩

end Wt

namespace Wt

/-- C1: a worktree that reaches the status checks of `runCleanup` is
selected as a cleanup candidate exactly when it is not dirty, not new,
has zero commits ahead, and is merged; violating any single one of the
four conditions excludes it regardless of the others. -/
theorem cleanup_candidate_is_exact_conjunction (env : CleanupEnv) (wt : Worktree)
    (st : WorktreeStatus)
    (hmain : wt.path ≠ env.repoRoot)
    (hmanaged : strStartsWith wt.path (worktreesDirOf env) = true)
    (hbranch : wt.branch ≠ "")
    (hst : env.status wt = some st) :
    ((cleanupSelect env wt).isSome = true ↔
      st.hasUncommittedChanges = false ∧ st.isNew = false ∧
        st.commitsAhead = 0 ∧ st.isMerged = true)
    ∧ (st.hasUncommittedChanges = true → cleanupSelect env wt = none)
    ∧ (st.isNew = true → cleanupSelect env wt = none)
    ∧ (0 < st.commitsAhead → cleanupSelect env wt = none)
    ∧ (st.isMerged = false → cleanupSelect env wt = none) := by
  have hsel : cleanupSelect env wt =
      (if st.hasUncommittedChanges then none
       else if st.isNew then none
       else if 0 < st.commitsAhead then none
       else if st.isMerged then
         some ⟨GetWorktreeName env.repoRoot wt.path env.worktreeDir, wt.path, wt.branch, st⟩
       else none) := by
    unfold cleanupSelect
    simp [hmain, hmanaged, hbranch, hst]
  refine ⟨?_, ?_, ?_, ?_, ?_⟩
  · rw [hsel]
    cases hd : st.hasUncommittedChanges <;>
      cases hn : st.isNew <;>
        cases hm : st.isMerged <;>
          rcases Nat.eq_zero_or_pos st.commitsAhead with ha | ha <;>
            simp [hd, hn, hm, ha]
    all_goals omega
  · intro hd; rw [hsel]; simp [hd]
  · intro hn; rw [hsel]
    cases hd : st.hasUncommittedChanges <;> simp [hn]
  · intro ha; rw [hsel]
    cases hd : st.hasUncommittedChanges <;> cases hn : st.isNew <;> simp [ha, Nat.pos_iff_ne_zero.mp ha]
  · intro hm; rw [hsel]
    cases hd : st.hasUncommittedChanges <;> cases hn : st.isNew <;>
      rcases Nat.eq_zero_or_pos st.commitsAhead with ha | ha <;> simp [hm, ha]

/-- Witness for C1 at a concrete merged worktree. -/
theorem cleanup_candidate_is_exact_conjunction_witness :
    (cleanupSelect sampleCleanupEnv sampleWorktree).isSome = true :=
  (cleanup_candidate_is_exact_conjunction sampleCleanupEnv sampleWorktree sampleStatusMerged
      (by decide) (by decide) (by decide) rfl).1.mpr (by decide)

/-- C2: the compact renderer emits at most one state label by strict
priority — `new`, else `in_progress` when ahead and unmerged, else the
merged label when merged with zero ahead, else none (commits ahead of an
already-merged branch yield no state label) — and the `dirty` tag is
appended exactly when there are uncommitted changes, with any state
label or with none; the merged label is `"merged"` alone or
`"merged in #N, #M..."` when PR numbers were found. -/
theorem compact_status_label_priority (s : WorktreeStatus) :
    (s.isNew = true →
      statusTags s = "new" :: (if s.hasUncommittedChanges then [bold ++ "dirty" ++ reset] else []))
    ∧ (s.isNew = false → 0 < s.commitsAhead → s.isMerged = false →
      statusTags s = (bold ++ "in_progress" ++ reset)
        :: (if s.hasUncommittedChanges then [bold ++ "dirty" ++ reset] else []))
    ∧ (s.isNew = false → s.isMerged = true → s.commitsAhead = 0 →
      statusTags s = FormatMergedStatus s.mergedPRs
        :: (if s.hasUncommittedChanges then [bold ++ "dirty" ++ reset] else []))
    ∧ (s.isNew = false → 0 < s.commitsAhead → s.isMerged = true →
      statusTags s = (if s.hasUncommittedChanges then [bold ++ "dirty" ++ reset] else []))
    ∧ (s.isNew = false → s.commitsAhead = 0 → s.isMerged = false →
      statusTags s = (if s.hasUncommittedChanges then [bold ++ "dirty" ++ reset] else []))
    ∧ FormatMergedStatus [] = "merged"
    ∧ (∀ prs : List String, prs ≠ [] →
      FormatMergedStatus prs = "merged in " ++ String.intercalate ", " prs) := by
  refine ⟨?_, ?_, ?_, ?_, ?_, rfl, ?_⟩
  · intro hn; simp [statusTags, hn]
  · intro hn ha hm; simp [statusTags, hn, ha, hm]
  · intro hn hm ha; simp [statusTags, hn, ha, hm]
  · intro hn ha hm
    simp [statusTags, hn, hm, ha, Nat.pos_iff_ne_zero.mp ha]
  · intro hn ha hm; simp [statusTags, hn, ha, hm]
  · intro prs hprs
    simp [FormatMergedStatus, hprs]

/-- Witness for C2 at a concrete new-and-dirty status. -/
theorem compact_status_label_priority_witness :
    statusTags sampleStatusNewDirty =
      "new" :: (if sampleStatusNewDirty.hasUncommittedChanges then
        [bold ++ "dirty" ++ reset] else []) :=
  (compact_status_label_priority sampleStatusNewDirty).1 rfl

/-- Soundness of the allocation loop: a returned index is at least the
start index, unused, preceded only by used indices, and within the
configured bound. -/
theorem allocGo_ok_sound (used : List Nat) (m : Nat) :
    ∀ (fuel i k : Nat), allocGo used m i fuel = .ok k →
      i ≤ k ∧ used.contains k = false ∧
        (∀ j, i ≤ j → j < k → used.contains j = true) ∧ (0 < m → k ≤ m) := by
  intro fuel
  induction fuel with
  | zero => intro i k h; simp [allocGo] at h
  | succ fuel ih =>
    intro i k h
    unfold allocGo at h
    by_cases hb : 0 < m ∧ m < i
    · simp [hb] at h
    · rw [if_neg hb] at h
      by_cases hc : used.contains i
      · rw [if_pos hc] at h
        obtain ⟨h1, h2, h3, h4⟩ := ih (i + 1) k h
        refine ⟨by omega, h2, ?_, h4⟩
        intro j hj1 hj2
        rcases Nat.eq_or_lt_of_le hj1 with hj | hj
        · simpa [← hj] using hc
        · exact h3 j hj hj2
      · rw [if_neg hc, Except.ok.injEq] at h
        subst h
        refine ⟨Nat.le_refl i, by simpa using hc, ?_, ?_⟩
        · intro j hj1 hj2; omega
        · intro hm; by_contra hk; exact hb ⟨hm, by omega⟩

/-- Completeness of the allocation loop: with enough fuel the loop
returns the smallest in-range unused index at or above the start. -/
theorem allocGo_ok_complete (used : List Nat) (m : Nat) :
    ∀ (fuel i k : Nat), i ≤ k → used.contains k = false →
      (∀ j, i ≤ j → j < k → used.contains j = true) → (0 < m → k ≤ m) →
      k - i < fuel → allocGo used m i fuel = .ok k := by
  intro fuel
  induction fuel with
  | zero => intro i k _ _ _ _ hfuel; omega
  | succ fuel ih =>
    intro i k hik hk hbelow hm hfuel
    unfold allocGo
    have hb : ¬(0 < m ∧ m < i) := by
      rintro ⟨hm0, hmi⟩
      have := hm hm0
      omega
    rw [if_neg hb]
    rcases Nat.eq_or_lt_of_le hik with heq | hlt
    · rw [if_neg (by simpa [heq] using hk)]
      exact congrArg Except.ok heq
    · rw [if_pos (hbelow i (Nat.le_refl i) hlt)]
      exact ih (i + 1) k (by omega) hk (fun j hj1 hj2 => hbelow j (by omega) hj2) hm (by omega)

/-- Exhaustion of the allocation loop: when every index from the start
up to the bound is used, the loop fails with the exhausted error. -/
theorem allocGo_error_complete (used : List Nat) (m : Nat) :
    ∀ (fuel i : Nat), 0 < m → i ≤ m + 1 →
      (∀ j, i ≤ j → j ≤ m → used.contains j = true) →
      m + 1 - i < fuel → allocGo used m i fuel = .error (allocExhaustedMsg m) := by
  intro fuel
  induction fuel with
  | zero => intro i _ _ _ hfuel; omega
  | succ fuel ih =>
    intro i hm hi hall hfuel
    unfold allocGo
    by_cases hb : m < i
    · rw [if_pos ⟨hm, hb⟩]
    · rw [if_neg (by omega)]
      rw [if_pos (hall i (Nat.le_refl i) (by omega))]
      exact ih (i + 1) hm (by omega) (fun j hj1 hj2 => hall j (by omega) hj2) (by omega)

/-- Pigeonhole bound: a list containing every index `1..m` has at least
`m` elements. -/
theorem length_ge_of_contains_range (used : List Nat) (m : Nat)
    (h : ∀ j, 1 ≤ j → j ≤ m → used.contains j = true) : m ≤ used.length := by
  have hsub : Finset.Icc 1 m ⊆ used.toFinset := by
    intro j hj
    rw [Finset.mem_Icc] at hj
    rw [List.mem_toFinset]
    simpa using h j hj.1 hj.2
  have h1 := Finset.card_le_card hsub
  rw [Nat.card_Icc] at h1
  have h2 := used.toFinset_card_le
  omega

/-- C3: `AllocateIndex` returns the smallest integer at least 1 that no
live worktree currently holds; when `maxIndex` is positive and all of
`1..maxIndex` are in use it fails with the exhausted error naming
`maxIndex`; it never returns 0 (its results are at least 1); and it
returns `k` whenever `k` is the smallest unused value within the bound
— in particular immediately after an index `k` was freed. -/
theorem allocate_index_smallest_unused :
    (∀ (used : List Nat) (maxIndex k : Nat), AllocateIndex used maxIndex = .ok k →
      1 ≤ k ∧ used.contains k = false ∧
        (∀ j, 1 ≤ j → j < k → used.contains j = true) ∧ (0 < maxIndex → k ≤ maxIndex))
    ∧ (∀ (used : List Nat) (maxIndex : Nat), 0 < maxIndex →
      (∀ j, 1 ≤ j → j ≤ maxIndex → used.contains j = true) →
      AllocateIndex used maxIndex = .error (allocExhaustedMsg maxIndex))
    ∧ (∀ (used : List Nat) (maxIndex : Nat), AllocateIndex used maxIndex ≠ .ok 0)
    ∧ (∀ (used : List Nat) (maxIndex k : Nat), 1 ≤ k → used.contains k = false →
      (∀ j, 1 ≤ j → j < k → used.contains j = true) → (maxIndex = 0 ∨ k ≤ maxIndex) →
      AllocateIndex used maxIndex = .ok k) := by
  have sound := fun (used : List Nat) (m k : Nat) (h : AllocateIndex used m = .ok k) =>
    allocGo_ok_sound used m (used.length + 1) 1 k h
  refine ⟨sound, ?_, ?_, ?_⟩
  · intro used m hm hall
    have hlen : m ≤ used.length := length_ge_of_contains_range used m hall
    exact allocGo_error_complete used m (used.length + 1) 1 hm (by omega) hall (by omega)
  · intro used m h
    have := (sound used m 0 h).1
    omega
  · intro used m k hk hkfree hbelow hbound
    have hlen : k - 1 ≤ used.length := by
      have := length_ge_of_contains_range used (k - 1)
        (fun j hj1 hj2 => hbelow j hj1 (by omega))
      omega
    refine allocGo_ok_complete used m (used.length + 1) 1 k hk hkfree hbelow ?_ (by omega)
    intro hm
    rcases hbound with h0 | hle
    · omega
    · exact hle

/-- Witness for C3: with indices 1 and 2 in use and no bound, the next
allocation returns the freed smallest value 3. -/
theorem allocate_index_smallest_unused_witness :
    AllocateIndex [1, 2] 0 = .ok 3 :=
  allocate_index_smallest_unused.2.2.2 [1, 2] 0 3 (by decide) (by decide)
    (fun j hj1 hj2 => by interval_cases j <;> decide) (Or.inl rfl)

/-- Go `runHook` succeeds exactly when the resolved script exists and its
execution exits zero. -/
theorem runHook_ok_iff (os : HookOS) (e : HookEnv) (workDir : String) (entry : HookEntry) :
    runHook os e workDir entry = .ok () ↔
      os.pathExists (resolveHookScript e.repoRoot entry.script) = true ∧
        os.execOk (resolveHookScript e.repoRoot entry.script) workDir = true := by
  unfold runHook
  by_cases h1 : os.pathExists (resolveHookScript e.repoRoot entry.script) = false
  · simp [h1]
  · rw [if_neg h1]
    have h1' : os.pathExists (resolveHookScript e.repoRoot entry.script) = true := by
      simpa using h1
    by_cases h2 : os.execOk (resolveHookScript e.repoRoot entry.script) workDir
    · simp [h2, h1']
    · simp [h2]

/-- An all-successful prefix of a hook list passes control to the rest
and contributes exactly its resolved scripts, in order. -/
theorem run_append_of_ok (os : HookOS) (e : HookEnv) (workDir : String) :
    ∀ (pre rest : List HookEntry), (∀ en ∈ pre, runHook os e workDir en = .ok ()) →
      Run os e workDir (pre ++ rest) = Run os e workDir rest ∧
        RunExecuted os e workDir (pre ++ rest) =
          pre.map (fun en => resolveHookScript e.repoRoot en.script)
            ++ RunExecuted os e workDir rest := by
  intro pre
  induction pre with
  | nil => intro rest _; simp
  | cons en pre ih =>
    intro rest hok
    have hen := hok en (List.mem_cons_self en pre)
    have hrest := ih rest (fun x hx => hok x (List.mem_cons_of_mem en hx))
    obtain ⟨hex, hrun⟩ := (runHook_ok_iff os e workDir en).mp hen
    constructor
    · rw [List.cons_append]
      show (match runHook os e workDir en with
        | .error err => .error err
        | .ok _ => Run os e workDir (pre ++ rest)) = Run os e workDir rest
      rw [hen]
      exact hrest.1
    · rw [List.cons_append]
      show (let scriptPath := resolveHookScript e.repoRoot en.script
        if os.pathExists scriptPath = false then []
        else if os.execOk scriptPath workDir then scriptPath :: RunExecuted os e workDir (pre ++ rest)
        else [scriptPath]) =
        List.map (fun en => resolveHookScript e.repoRoot en.script) (en :: pre)
          ++ RunExecuted os e workDir rest
      simp [hex, hrun, hrest.2]

/-- C4: hook lists run strictly sequentially in configured order; a
relative script path is resolved against the repository root and a
missing resolved path yields the "hook script not found" error; the
first failing entry (missing script or non-zero exit) aborts every
remaining entry of the list and its error is returned, so no entry
after the failing one is executed. -/
theorem hook_list_aborts_on_first_failure (os : HookOS) (e : HookEnv) (workDir : String) :
    (∀ entry : HookEntry, isAbsPath entry.script = false →
      resolveHookScript e.repoRoot entry.script = joinPath e.repoRoot entry.script)
    ∧ (∀ entry : HookEntry, os.pathExists (resolveHookScript e.repoRoot entry.script) = false →
      runHook os e workDir entry =
        .error (.scriptNotFound (resolveHookScript e.repoRoot entry.script))
      ∧ hookErrorMessage (.scriptNotFound (resolveHookScript e.repoRoot entry.script)) =
          "hook script not found: " ++ resolveHookScript e.repoRoot entry.script)
    ∧ (∀ entries : List HookEntry, (∀ en ∈ entries, runHook os e workDir en = .ok ()) →
      Run os e workDir entries = .ok ()
      ∧ RunExecuted os e workDir entries =
          entries.map (fun en => resolveHookScript e.repoRoot en.script))
    ∧ (∀ (pre : List HookEntry) (entry : HookEntry) (post : List HookEntry) (err : HookError),
      (∀ en ∈ pre, runHook os e workDir en = .ok ()) →
      runHook os e workDir entry = .error err →
      Run os e workDir (pre ++ entry :: post) = .error err
      ∧ RunExecuted os e workDir (pre ++ entry :: post) =
          pre.map (fun en => resolveHookScript e.repoRoot en.script)
            ++ RunExecuted os e workDir [entry]) := by
  refine ⟨?_, ?_, ?_, ?_⟩
  · intro entry habs
    unfold resolveHookScript
    rw [if_neg (by simp [habs])]
  · intro entry hmiss
    exact ⟨by unfold runHook; rw [if_pos hmiss], rfl⟩
  · intro entries hok
    have h := run_append_of_ok os e workDir entries [] hok
    rw [List.append_nil] at h
    exact ⟨h.1.trans rfl, h.2.trans (by simp [RunExecuted])⟩
  · intro pre entry post err hok hfail
    have h := run_append_of_ok os e workDir pre (entry :: post) hok
    refine ⟨?_, ?_⟩
    · rw [h.1]
      show (match runHook os e workDir entry with
        | Except.error e2 => (Except.error e2 : Except HookError Unit)
        | Except.ok _ => Run os e workDir post) = Except.error err
      rw [hfail]
    · rw [h.2]
      congr 1
      by_cases hex : os.pathExists (resolveHookScript e.repoRoot entry.script) = false
      · show (let scriptPath := resolveHookScript e.repoRoot entry.script
          if os.pathExists scriptPath = false then []
          else if os.execOk scriptPath workDir then scriptPath :: RunExecuted os e workDir post
          else [scriptPath]) = RunExecuted os e workDir [entry]
        simp [RunExecuted, hex]
      · have hex' : os.pathExists (resolveHookScript e.repoRoot entry.script) = true := by
          simpa using hex
        have hrun : os.execOk (resolveHookScript e.repoRoot entry.script) workDir = false := by
          by_contra hr
          rw [(runHook_ok_iff os e workDir entry).mpr ⟨hex', by simpa using hr⟩] at hfail
          exact Except.noConfusion hfail
        show (let scriptPath := resolveHookScript e.repoRoot entry.script
          if os.pathExists scriptPath = false then []
          else if os.execOk scriptPath workDir then scriptPath :: RunExecuted os e workDir post
          else [scriptPath]) = RunExecuted os e workDir [entry]
        simp [RunExecuted, hex', hrun]

/-- Witness for C4: in a three-entry list whose second script fails, the
run returns the second script's error and the third script is never
executed. -/
theorem hook_list_aborts_on_first_failure_witness :
    Run sampleHookOS testHookEnv "/repo/worktrees/test-wt" sampleHookEntries =
      .error (.execFailed "/repo/fail.sh")
    ∧ RunExecuted sampleHookOS testHookEnv "/repo/worktrees/test-wt" sampleHookEntries =
      ["/repo/a.sh", "/repo/fail.sh"] := by
  have h := (hook_list_aborts_on_first_failure sampleHookOS testHookEnv
      "/repo/worktrees/test-wt").2.2.2 [⟨"a.sh", []⟩] ⟨"fail.sh", []⟩ [⟨"c.sh", []⟩]
      (.execFailed "/repo/fail.sh")
      (by intro en hen
          simp only [List.mem_singleton] at hen
          subst hen
          rfl)
      rfl
  exact ⟨h.1, h.2.trans (by rfl)⟩

/-- C5: a non-forced delete evaluates both guards; when at least one is
violated the run fails reporting every violated guard together — both
messages when both guards are violated — and performs no effect at all:
no pre-delete hook, no worktree removal, no branch deletion. -/
theorem delete_guards_list_all_violations (env : DeleteEnv) (hforce : env.force = false) :
    (deleteGuardIssues env.dirty env.ahead env.comparisonRef ≠ [] →
      runDeleteFrom env =
        ⟨[], .error (.guardViolations (deleteGuardIssues env.dirty env.ahead env.comparisonRef))⟩)
    ∧ (env.dirty = true →
      dirtyIssueMsg ∈ deleteGuardIssues env.dirty env.ahead env.comparisonRef)
    ∧ (0 < env.ahead →
      aheadIssueMsg env.ahead env.comparisonRef ∈
        deleteGuardIssues env.dirty env.ahead env.comparisonRef)
    ∧ (env.dirty = true → 0 < env.ahead →
      deleteGuardIssues env.dirty env.ahead env.comparisonRef =
        [dirtyIssueMsg, aheadIssueMsg env.ahead env.comparisonRef]) := by
  refine ⟨?_, ?_, ?_, ?_⟩
  · intro hissues
    unfold runDeleteFrom
    rw [if_pos ⟨hforce, hissues⟩]
  · intro hd
    unfold deleteGuardIssues
    rw [if_pos hd]
    exact List.mem_append_left _ (List.mem_singleton.mpr rfl)
  · intro ha
    unfold deleteGuardIssues
    rw [if_pos ha]
    exact List.mem_append_right _ (List.mem_singleton.mpr rfl)
  · intro hd ha
    unfold deleteGuardIssues
    rw [if_pos hd, if_pos ha]
    rfl

/-- Witness for C5 at a dirty worktree two commits ahead: the run fails
with both guard messages and an empty effect trace. -/
theorem delete_guards_list_all_violations_witness :
    runDeleteFrom ⟨false, false, "feat", "/repo/worktrees/feat", "feat",
        true, 2, "origin/main", true, true⟩ =
      ⟨[], .error (.guardViolations
        ["has uncommitted changes (modified or untracked files)",
         "has 2 commits not merged into origin/main"])⟩ :=
  (delete_guards_list_all_violations
    ⟨false, false, "feat", "/repo/worktrees/feat", "feat", true, 2, "origin/main", true, true⟩
    rfl).1 (by decide)

/-- C6: comparison resolution fetches exactly when a remote is
configured, the effective interval is not the `"never"` sentinel, and
the interval is not positive or the elapsed time since the last fetch
reaches it; hence no remote means no fetch under any interval
configuration, `"never"` means no fetch however old the last fetch, and
`"0"` means a fetch on every invocation. -/
theorem comparison_fetch_policy (env : ResolveEnv) :
    ((resolveComparisonRef env).2 = true ↔
      GetRemoteForRepo env.userCfg env.repoPath ≠ "" ∧
        GetFetchIntervalForRepo env.userCfg env.repoPath ≠ FetchIntervalNever ∧
        (¬ 0 < GetFetchIntervalForRepo env.userCfg env.repoPath ∨
          GetFetchIntervalForRepo env.userCfg env.repoPath ≤ env.timeSinceLastFetch))
    ∧ (GetRemoteForRepo env.userCfg env.repoPath = "" →
      (resolveComparisonRef env).2 = false)
    ∧ (effectiveFetchIntervalString env.userCfg env.repoPath = "never" →
      (resolveComparisonRef env).2 = false)
    ∧ (effectiveFetchIntervalString env.userCfg env.repoPath = "0" →
      GetRemoteForRepo env.userCfg env.repoPath ≠ "" →
      (resolveComparisonRef env).2 = true) := by
  have hsnd : (resolveComparisonRef env).2 =
      (if GetRemoteForRepo env.userCfg env.repoPath ≠ "" then
        (if GetFetchIntervalForRepo env.userCfg env.repoPath ≠ FetchIntervalNever then
          (if 0 < GetFetchIntervalForRepo env.userCfg env.repoPath ∧
              env.timeSinceLastFetch < GetFetchIntervalForRepo env.userCfg env.repoPath
            then false else true)
          else false)
        else false) := by
    unfold resolveComparisonRef
    by_cases hr : GetRemoteForRepo env.userCfg env.repoPath ≠ "" <;> simp [hr]
  refine ⟨?_, ?_, ?_, ?_⟩
  · rw [hsnd]
    split_ifs with h1 h2 h3
    · simp only [Bool.false_eq_true, false_iff]
      rintro ⟨-, -, h⟩
      omega
    · simp only [true_iff]
      refine ⟨h1, h2, ?_⟩
      by_cases hp : 0 < GetFetchIntervalForRepo env.userCfg env.repoPath
      · right
        by_contra htime
        exact h3 ⟨hp, by omega⟩
      · left; exact hp
    · simp only [Bool.false_eq_true, false_iff]
      rintro ⟨-, hne, -⟩
      exact hne (by simpa using h2)
    · simp only [Bool.false_eq_true, false_iff]
      rintro ⟨hne, -, -⟩
      exact hne (by simpa using h1)
  · intro hr
    rw [hsnd, if_neg (by simp [hr])]
  · intro hnever
    have hint : GetFetchIntervalForRepo env.userCfg env.repoPath = FetchIntervalNever := by
      unfold GetFetchIntervalForRepo
      rw [hnever]
      rfl
    rw [hsnd]
    split_ifs with h1 h2 h3 <;> first
      | rfl
      | exact absurd hint h2
  · intro hzero hr
    have hint : GetFetchIntervalForRepo env.userCfg env.repoPath = 0 := by
      unfold GetFetchIntervalForRepo
      rw [hzero]
      rfl
    rw [hsnd, if_pos hr, if_pos (by rw [hint]; decide), if_neg (by rw [hint]; omega)]

/-- Witness for C6: no remote never fetches, `"never"` never fetches
even with an ancient last fetch, `"0"` fetches even with a fresh one. -/
theorem comparison_fetch_policy_witness :
    (resolveComparisonRef sampleLocalResolveEnv).2 = false
    ∧ (resolveComparisonRef sampleNeverResolveEnv).2 = false
    ∧ (resolveComparisonRef sampleAlwaysResolveEnv).2 = true :=
  ⟨(comparison_fetch_policy sampleLocalResolveEnv).2.1 rfl,
   (comparison_fetch_policy sampleNeverResolveEnv).2.2.1 rfl,
   (comparison_fetch_policy sampleAlwaysResolveEnv).2.2.2 rfl (by decide)⟩

/-- C7: evaluating `Env.ToEnvVars` as it stands in the source at the
unit test's environment shows it produces exactly five entries —
`WT_NAME`, `WT_PATH`, `WT_BRANCH`, `WT_REPO_ROOT`, `WT_WORKTREE_DIR` —
and no `WT_INDEX` entry, contradicting the six-variable contract the
spec (and the repository's own README and the `env.Index` writes in the
command layer) describe. -/
theorem toEnvVars_has_five_entries_no_index :
    ToEnvVars testHookEnv =
      ["WT_NAME=test-wt", "WT_PATH=/repo/worktrees/test-wt", "WT_BRANCH=test-branch",
       "WT_REPO_ROOT=/repo", "WT_WORKTREE_DIR=worktrees"]
    ∧ (ToEnvVars testHookEnv).length = 5
    ∧ (ToEnvVars testHookEnv).all (fun v => !(strStartsWith v "WT_INDEX=")) = true
    ∧ (∀ e : HookEnv, (ToEnvVars e).length = 5) := by
  refine ⟨by decide, by decide, by decide, fun e => rfl⟩

/-- C8 counterexample: a dry-run cleanup against a repository with a
configured remote and fetch interval `"0"` performs a fetch (updating
remote-tracking refs and the recorded fetch timestamp), so its effect
trace is not empty — the claim that dry-run leaves filesystem and git
state unchanged fails at this input. -/
theorem cleanup_dry_run_fetches :
    (runCleanup sampleCleanupRunEnv true false false).effects = [CleanupEffect.fetch "origin"]
    ∧ (runCleanup sampleCleanupRunEnv true false false).effects ≠ [] := by
  refine ⟨by decide, by decide⟩

/-- C8 (amended): a dry-run cleanup performs no effect beyond the fetch
of its comparison-setup phase — which a non-dry-run invocation performs
identically — requests no confirmation (it completes regardless of the
confirmation oracle), runs no hook, removes no worktree and deletes no
branch, and its candidate set equals the one a non-dry-run invocation
computes against the same repository state. -/
theorem cleanup_dry_run_no_mutation_beyond_setup (renv : CleanupRunEnv)
    (force keepBranch : Bool) :
    (runCleanup renv true force keepBranch).effects = setupFetchEffects renv.resolveEnv
    ∧ (runCleanup renv true force keepBranch).completed = true
    ∧ (runCleanup renv true force keepBranch).candidates =
        (runCleanup renv false force keepBranch).candidates := by
  unfold runCleanup
  by_cases hc : (cleanupCandidates renv.env).isEmpty
  · simp [hc]
  · simp only [hc, Bool.false_eq_true, if_false, if_true]
    refine ⟨trivial, trivial, ?_⟩
    split_ifs <;> rfl

/-- The scanner loop keeps its accumulator untouched over lines that do
not reference the branch. -/
theorem getMergePRsGo_of_no_match (b : String) :
    ∀ (lines acc : List String), (∀ l ∈ lines, matchesBranchName l b = false) →
      getMergePRsGo b lines acc = acc := by
  intro lines
  induction lines with
  | nil => intro acc _; rfl
  | cons l rest ih =>
    intro acc h
    unfold getMergePRsGo
    rw [h l (List.mem_cons_self l rest)]
    simp only [Bool.false_eq_true, if_false]
    exact ih acc (fun x hx => h x (List.mem_cons_of_mem l hx))

/-- C9: PR attribution examines at most the 100 most recent merge
subjects, contributes nothing from lines that do not reference the
branch (token after `from` with at most one owner segment stripped, or
the branch in single quotes), extracts the `#N` token of the
case-insensitive `pull request #N` pattern, and deduplicates preserving
discovery order; in particular `#482` is extracted from
`"Merge pull request #482 from acme/feature-x"` for branch `feature-x`
and nothing from it for an unrelated branch. -/
theorem merge_pr_attribution (subjects : List String) (b : String) :
    (GetMergePRs subjects b = GetMergePRs (subjects.take 100) b)
    ∧ ((∀ line ∈ subjects, matchesBranchName line b = false) → GetMergePRs subjects b = [])
    ∧ GetMergePRs ["Merge pull request #482 from acme/feature-x"] "feature-x" = ["#482"]
    ∧ GetMergePRs ["Merge pull request #482 from acme/feature-x"] "other-branch" = []
    ∧ GetMergePRs
        ["Merge pull request #482 from acme/feature-x",
         "Merge pull request #7 from feature-x",
         "Merge pull request #482 from acme/feature-x"] "feature-x" = ["#482", "#7"]
    ∧ matchesBranchName
        ("Merge branch " ++ String.singleton quoteChar ++ "feature-x"
          ++ String.singleton quoteChar ++ " into main") "feature-x" = true := by
  refine ⟨?_, ?_, by decide, by decide, by decide, by decide⟩
  · unfold GetMergePRs
    rw [List.take_take, min_self]
  · intro h
    unfold GetMergePRs
    exact getMergePRsGo_of_no_match b (subjects.take 100) []
      (fun l hl => h l (List.mem_of_mem_take hl))

/-- Witness for C9: a log whose only merge subject concerns an
unrelated branch yields no PR attribution. -/
theorem merge_pr_attribution_witness :
    GetMergePRs ["Merge pull request #9 from owner/unrelated"] "feature-x" = [] :=
  (merge_pr_attribution ["Merge pull request #9 from owner/unrelated"] "feature-x").2.1
    (by intro line hl
        simp only [List.mem_singleton] at hl
        subst hl
        decide)

/-- A string never equals a strict extension of itself. -/
theorem joinPath_ne_left (a b : String) : joinPath a b ≠ a := by
  intro h
  have h2 := congrArg String.length h
  rw [joinPath, String.length_append, String.length_append] at h2
  have h3 : String.length "/" = 1 := rfl
  omega

/-- A string is a `strings.HasPrefix`-prefix of any extension of
itself. -/
theorem strStartsWith_append (a b : String) : strStartsWith (a ++ b) a = true := by
  rw [strStartsWith]
  have : (a ++ b).toList = a.toList ++ b.toList := by
    simp [String.toList]
  rw [this, List.isPrefixOf_iff_prefix]
  exact List.prefix_append a.toList b.toList

/-- The worktree directory is a prefix of any path joined below it. -/
theorem strStartsWith_joinPath (base n : String) :
    strStartsWith (joinPath base n) base = true := by
  rw [joinPath, String.append_assoc]
  exact strStartsWith_append base ("/" ++ n)

/-- A path joined two levels below the repository root is distinct from
the root. -/
theorem joinPath_joinPath_ne_root (root dir n : String) :
    joinPath (joinPath root dir) n ≠ root := by
  intro h
  have h2 := congrArg String.length h
  rw [joinPath, joinPath, String.length_append, String.length_append,
    String.length_append, String.length_append] at h2
  have h3 : String.length "/" = 1 := rfl
  omega

/-- C10: every cleanup candidate and every listed worktree lies under
the managed worktree directory (in the `strings.HasPrefix` sense the
code uses), is never the main worktree, and cleanup candidates always
carry a non-empty branch; the path `runDelete` operates on is always
`<repoRoot>/<worktreeDir>/<name>`, hence under the worktree directory
and distinct from the repository root. -/
theorem operations_stay_under_worktree_dir :
    (∀ (env : CleanupEnv) (c : CleanupCandidate), c ∈ cleanupCandidates env →
      c.path ≠ env.repoRoot ∧ strStartsWith c.path (worktreesDirOf env) = true ∧ c.branch ≠ "")
    ∧ (∀ (env : CleanupEnv) (w : ListedWorktree), w ∈ listManaged env →
      w.path ≠ env.repoRoot ∧ strStartsWith w.path (worktreesDirOf env) = true)
    ∧ (∀ (repoRoot worktreeDir : String) (args : List String) (cwd name path : String),
      deleteTarget repoRoot worktreeDir args cwd = .ok (name, path) →
      path = joinPath (joinPath repoRoot worktreeDir) name
        ∧ strStartsWith path (joinPath repoRoot worktreeDir) = true
        ∧ path ≠ repoRoot) := by
  refine ⟨?_, ?_, ?_⟩
  · intro env c hc
    obtain ⟨wt, hwt, hsel⟩ := List.mem_filterMap.mp hc
    unfold cleanupSelect at hsel
    by_cases h1 : wt.path = env.repoRoot
    · rw [if_pos h1] at hsel; exact absurd hsel (by simp)
    · rw [if_neg h1] at hsel
      by_cases h2 : strStartsWith wt.path (worktreesDirOf env) = false
      · rw [if_pos h2] at hsel; exact absurd hsel (by simp)
      · rw [if_neg h2] at hsel
        by_cases h3 : wt.branch = ""
        · rw [if_pos h3] at hsel; exact absurd hsel (by simp)
        · rw [if_neg h3] at hsel
          match hst : env.status wt with
          | none => rw [hst] at hsel; exact absurd hsel (by simp)
          | some st =>
            rw [hst] at hsel
            have hfields : c.path = wt.path ∧ c.branch = wt.branch := by
              by_cases hd : st.hasUncommittedChanges <;>
                by_cases hn : st.isNew <;>
                  by_cases ha : 0 < st.commitsAhead <;>
                    by_cases hm : st.isMerged <;>
                      simp [hd, hn, ha, hm] at hsel
              all_goals
                exact ⟨congrArg CleanupCandidate.path hsel.symm,
                  congrArg CleanupCandidate.branch hsel.symm⟩
            rw [hfields.1, hfields.2]
            exact ⟨h1, by simpa using h2, h3⟩
  · intro env w hw
    obtain ⟨wt, hwt, hsel⟩ := List.mem_filterMap.mp hw
    unfold listSelect at hsel
    by_cases h1 : wt.path = env.repoRoot
    · rw [if_pos h1] at hsel; exact absurd hsel (by simp)
    · rw [if_neg h1] at hsel
      by_cases h2 : strStartsWith wt.path (worktreesDirOf env) = false
      · rw [if_pos h2] at hsel; exact absurd hsel (by simp)
      · rw [if_neg h2] at hsel
        have hp : w.path = wt.path := by
          have := Option.some.inj hsel
          exact congrArg ListedWorktree.path this.symm
        rw [hp]
        exact ⟨h1, by simpa using h2⟩
  · intro repoRoot worktreeDir args cwd name path h
    cases args with
    | cons n0 tl =>
      unfold deleteTarget at h
      injection h with hpair
      injection hpair with hn hp
      subst hn
      refine ⟨hp.symm, ?_, ?_⟩
      · rw [← hp]
        exact strStartsWith_joinPath (joinPath repoRoot worktreeDir) n0
      · rw [← hp]
        exact joinPath_joinPath_ne_root repoRoot worktreeDir n0
    | nil =>
      unfold deleteTarget at h
      by_cases hpre : strStartsWith cwd (joinPath repoRoot worktreeDir) = false
      · rw [if_pos hpre] at h; exact absurd h (by simp)
      · rw [if_neg hpre] at h
        injection h with hpair
        injection hpair with hn hp
        subst hn
        refine ⟨hp.symm, ?_, ?_⟩
        · rw [← hp]
          exact strStartsWith_joinPath (joinPath repoRoot worktreeDir) _
        · rw [← hp]
          exact joinPath_joinPath_ne_root repoRoot worktreeDir _

/-- Witness for C10: an explicit delete of `feat` targets exactly
`/repo/worktrees/feat`. -/
theorem operations_stay_under_worktree_dir_witness :
    "/repo/worktrees/feat" = joinPath (joinPath "/repo" "worktrees") "feat"
      ∧ strStartsWith "/repo/worktrees/feat" (joinPath "/repo" "worktrees") = true
      ∧ "/repo/worktrees/feat" ≠ "/repo" :=
  operations_stay_under_worktree_dir.2.2 "/repo" "worktrees" ["feat"] "" "feat"
    "/repo/worktrees/feat" rfl

end Wt
